import Mathlib

/-!
Verification development for the trade indicator generator
(src/trade_indicator_generator.py).

The Python source is shallowly embedded below:

* temporal parsing (`parse_time`, `parse_date`, `parse_date_from_cloid`),
  where the CPython strptime directives are modelled at character level
  (`%H` is one or two digits with value at most 23, `%Y` exactly four
  digits, `%y` exactly two digits with the 69 pivot, `%m` and `%d` are
  one or two digits with value at least 1, and constructing the
  `datetime` additionally validates the day against the real month
  length);
* the consolidation step (`consolidate_trades`), where the pandas
  `groupby(sort=True)` is modelled as sorted deduplicated keys with a
  quantity sum per key, prices and quantities taken in `ℚ`;
* the date source resolution scan of `generate_pinescript`;
* the rendering step of `generate_pinescript`, abstracted to the data
  the claims mention: which per trade match variables are defined,
  which plot directives and alert variable references are emitted, the
  summary counts, and the plotted price expressions.
-/

/-- Numeric value of a decimal digit character. -/
def digitVal (c : Char) : ℕ := c.toNat - 48

/-- Value of a list of decimal digits. -/
def charsVal (p : List Char) : ℕ := p.foldl (fun a c => 10 * a + digitVal c) 0

/-- Whitespace stripping, as the Python strip call does on both ends. -/
def trimChars (l : List Char) : List Char :=
  ((l.dropWhile Char.isWhitespace).reverse.dropWhile Char.isWhitespace).reverse

/-- Split on a separator character (the strptime literal separators). -/
def splitChar (sep : Char) : List Char → List (List Char)
  | [] => [[]]
  | c :: t =>
      match splitChar sep t with
      | [] => [[]]
      | h :: rest => if c == sep then [] :: h :: rest else (c :: h) :: rest

/-- A one or two digit numeric field whose value lies in [lo, hi].
This is the shape of the CPython strptime fragments for hour, minute,
second, month and day (for month and day, lo = 1 excludes the strings
"0" and "00", exactly as the regular expressions do). -/
def numField (p : List Char) (lo hi : ℕ) : Bool :=
  (p.length == 1 || p.length == 2) && p.all Char.isDigit
    && decide (lo ≤ charsVal p) && decide (charsVal p ≤ hi)

/-- The strptime directive for a four digit year: exactly four digits. -/
def year4Ok (p : List Char) : Bool := p.length == 4 && p.all Char.isDigit

/-- The strptime directive for a two digit year: exactly two digits. -/
def year2Ok (p : List Char) : Bool := p.length == 2 && p.all Char.isDigit

/-- CPython maps a two digit year below 69 to the 2000s, the rest to
the 1900s. -/
def yearOf2 (v : ℕ) : ℕ := if v < 69 then 2000 + v else 1900 + v

/-- parse_time from the source: a "%H:%M:%S" attempt followed by a
"%H:%M" attempt; any other shape yields no result (the row is skipped
with a warning).  Seconds 60 and 61 match the strptime pattern but the
datetime constructor then rejects them, so the effective bound is 59. -/
def parse_time (s : String) : Option (ℕ × ℕ × ℕ) :=
  match splitChar ':' s.data with
  | [h, m, sec] =>
      if numField h 0 23 && numField m 0 59 && numField sec 0 59 then
        some (charsVal h, charsVal m, charsVal sec)
      else none
  | [h, m] =>
      if numField h 0 23 && numField m 0 59 then
        some (charsVal h, charsVal m, 0)
      else none
  | _ => none

/-- Leap year rule used by the datetime constructor. -/
def isLeap (y : ℕ) : Bool := y % 4 == 0 && (y % 100 != 0 || y % 400 == 0)

/-- Number of days of a month, as validated by the datetime constructor. -/
def daysInMonth (y m : ℕ) : ℕ :=
  if m = 2 then (if isLeap y then 29 else 28)
  else if m = 4 ∨ m = 6 ∨ m = 9 ∨ m = 11 then 30
  else 31

/-- Validation performed by the datetime constructor after a strptime
match: the year is at least 1, the month is 1 to 12 and the day fits
the month. -/
def mkDate (y m d : ℕ) : Option (ℕ × ℕ × ℕ) :=
  if 1 ≤ y ∧ 1 ≤ m ∧ m ≤ 12 ∧ 1 ≤ d ∧ d ≤ daysInMonth y m then some (y, m, d) else none

/-- The six date formats tried by parse_date, in source order. -/
inductive DateFmt
  | ymdDash      -- "%Y-%m-%d"
  | mdySlash     -- "%m/%d/%Y"
  | mdy2Slash    -- "%m/%d/%y"
  | ymdCompact   -- "%Y%m%d"
  | mdyDash      -- "%m-%d-%Y"
  | dmySlash     -- "%d/%m/%Y"
deriving DecidableEq, Repr

/-- The day group of the "%Y%m%d" regular expression must consume the
whole remainder: two digits with value 1 to 31, or a single digit 1 to 9. -/
def dayPat : List Char → Option ℕ
  | [a, b] =>
      let dv := 10 * digitVal a + digitVal b
      if 1 ≤ dv ∧ dv ≤ 31 then some dv else none
  | [a] =>
      let dv := digitVal a
      if 1 ≤ dv then some dv else none
  | _ => none

/-- Month and day split of the digits following the year in "%Y%m%d".
The strptime alternation prefers a two digit month (patterns 01 to 09
and 10 to 12) and falls back to a single digit month; the day group
must consume the rest of the string exactly. -/
def compactSplit (r : List Char) : Option (ℕ × ℕ) :=
  let two : Option (ℕ × ℕ) :=
    match r with
    | a :: b :: rest =>
        let mv := 10 * digitVal a + digitVal b
        if 1 ≤ mv ∧ mv ≤ 12 then (dayPat rest).map (fun dv => (mv, dv)) else none
    | _ => none
  match two with
  | some md => some md
  | none =>
      match r with
      | a :: rest =>
          let mv := digitVal a
          if 1 ≤ mv then (dayPat rest).map (fun dv => (mv, dv)) else none
      | [] => none

/-- One strptime attempt of parse_date: the regular expression match
for the format, followed by the datetime validation (`mkDate`). -/
def tryFormat : DateFmt → List Char → Option (ℕ × ℕ × ℕ)
  | .ymdDash, cs =>
      match splitChar '-' cs with
      | [y, m, d] =>
          if year4Ok y && numField m 1 12 && numField d 1 31 then
            mkDate (charsVal y) (charsVal m) (charsVal d)
          else none
      | _ => none
  | .mdySlash, cs =>
      match splitChar '/' cs with
      | [m, d, y] =>
          if numField m 1 12 && numField d 1 31 && year4Ok y then
            mkDate (charsVal y) (charsVal m) (charsVal d)
          else none
      | _ => none
  | .mdy2Slash, cs =>
      match splitChar '/' cs with
      | [m, d, y] =>
          if numField m 1 12 && numField d 1 31 && year2Ok y then
            mkDate (yearOf2 (charsVal y)) (charsVal m) (charsVal d)
          else none
      | _ => none
  | .ymdCompact, cs =>
      if cs.all Char.isDigit && decide (4 ≤ cs.length) then
        match compactSplit (cs.drop 4) with
        | some (mv, dv) => mkDate (charsVal (cs.take 4)) mv dv
        | none => none
      else none
  | .mdyDash, cs =>
      match splitChar '-' cs with
      | [m, d, y] =>
          if numField m 1 12 && numField d 1 31 && year4Ok y then
            mkDate (charsVal y) (charsVal m) (charsVal d)
          else none
      | _ => none
  | .dmySlash, cs =>
      match splitChar '/' cs with
      | [d, m, y] =>
          if numField d 1 31 && numField m 1 12 && year4Ok y then
            mkDate (charsVal y) (charsVal m) (charsVal d)
          else none
      | _ => none

/-- The ordered format list of parse_date, as written in the source. -/
def dateFormats : List DateFmt :=
  [.ymdDash, .mdySlash, .mdy2Slash, .ymdCompact, .mdyDash, .dmySlash]

/-- First defined value of a list of optional results. -/
def firstSome : List (Option (ℕ × ℕ × ℕ)) → Option (ℕ × ℕ × ℕ)
  | [] => none
  | some v :: _ => some v
  | none :: t => firstSome t

/-- parse_date from the source: strip the input, then try the six
formats in order and return the first successful parse. -/
def parse_date (s : String) : Option (ℕ × ℕ × ℕ) :=
  firstSome (dateFormats.map (fun f => tryFormat f (trimChars s.data)))

/-- Character level core of parse_date_from_cloid: at least 7
characters, a letter followed by six digits YYMMDD, month in [1, 12]
and day in [1, 31]; the two digit year maps to 2000 + YY. -/
def cloidCore : List Char → Option (ℕ × ℕ × ℕ)
  | c0 :: c1 :: c2 :: c3 :: c4 :: c5 :: c6 :: _ =>
      if c0.isAlpha && c1.isDigit && c2.isDigit && c3.isDigit && c4.isDigit
          && c5.isDigit && c6.isDigit then
        let y := 2000 + (10 * digitVal c1 + digitVal c2)
        let mo := 10 * digitVal c3 + digitVal c4
        let dy := 10 * digitVal c5 + digitVal c6
        if 1 ≤ mo ∧ mo ≤ 12 ∧ 1 ≤ dy ∧ dy ≤ 31 then some (y, mo, dy) else none
      else none
  | _ => none

/-- parse_date_from_cloid from the source: strip the cell value, then
decode the identifier encoded date. -/
def parse_date_from_cloid (s : String) : Option (ℕ × ℕ × ℕ) :=
  cloidCore (trimChars s.data)

/-- The rounding step of the emitted matching function:
math.round(second_val / tf_seconds) * tf_seconds.  In the generated
script both operands are Pine ints (the emitted time literals and
timeframe.in_seconds()), and Pine division of two ints truncates, so
math.round receives an already truncated integer and returns it
unchanged: the expression computes the floor multiple (s / tf) * tf. -/
def roundedSec (s tf : ℕ) : ℕ := (s / tf) * tf

/-- The overflow adjustment written into the emitted matching
functions is_trade_datetime and is_trade_time: a rounded second of at
least 60 subtracts 60 and carries into the minute; inside that branch
a minute of at least 60 subtracts 60 and carries into the hour; inside
that branch an hour of at least 24 subtracts 24, with no carry into
the day.  (With the truncating division above, a second below 60 never
rounds to 60, so the outer branch is dead code for in-range inputs.) -/
def adjustTime (h m s tf : ℕ) : ℕ × ℕ × ℕ :=
  let rs := roundedSec s tf
  if 60 ≤ rs then
    let s1 := rs - 60
    let m1 := m + 1
    if 60 ≤ m1 then
      let m2 := m1 - 60
      let h1 := h + 1
      if 24 ≤ h1 then (h1 - 24, m2, s1) else (h1, m2, s1)
    else (h, m1, s1)
  else (h, m, rs)

/-! ## Trade normalizer (consolidate_trades) -/

/-- One row of the trades DataFrame as seen by consolidate_trades:
the required fields plus the parsed date tuple when a date source is
active (rows with unparseable dates were filtered out before). -/
structure TradeRow where
  time : String
  symbol : String
  side : String
  price : ℚ
  qty : ℚ
  date : Option (ℕ × ℕ × ℕ)
deriving DecidableEq, Repr

/-- One consolidated trade: the grouping key plus the summed quantity. -/
structure ConsolidatedTrade where
  time : String
  side : String
  price : ℚ
  qty : ℚ
  date : Option (ℕ × ℕ × ℕ)
deriving DecidableEq, Repr

/-- The pandas grouping key: Time, Side, Price, and the Date tuple when
the Date column exists (a fixed none component otherwise). -/
abbrev TKey := String × String × ℚ × Option (ℕ × ℕ × ℕ)

/-- Grouping key of a raw row; the date participates only when the
Date column is present, as in the source. -/
def rowKey (hasDate : Bool) (r : TradeRow) : TKey :=
  (r.time, r.side, r.price, if hasDate then r.date else none)

/-- Grouping key of a consolidated trade. -/
def tradeKey (t : ConsolidatedTrade) : TKey := (t.time, t.side, t.price, t.date)

/-- Lexicographic encoding of a date tuple. -/
def encDate (d : ℕ × ℕ × ℕ) : ℕ ×ₗ (ℕ ×ₗ ℕ) := toLex (d.1, toLex (d.2.1, d.2.2))

/-- Missing dates sort below present ones (pandas never compares the
two within one run, since the date component is uniform per dataset). -/
def encOptDate : Option (ℕ × ℕ × ℕ) → WithBot (ℕ ×ₗ (ℕ ×ₗ ℕ))
  | none => ⊥
  | some d => (encDate d : WithBot (ℕ ×ₗ (ℕ ×ₗ ℕ)))

/-- Full lexicographic encoding of a grouping key.  Strings compare by
their character sequences (code point order), as Python compares them. -/
def encKey (k : TKey) : (List Char) ×ₗ ((List Char) ×ₗ (ℚ ×ₗ WithBot (ℕ ×ₗ (ℕ ×ₗ ℕ)))) :=
  toLex (k.1.data, toLex (k.2.1.data, toLex (k.2.2.1, encOptDate k.2.2.2)))

/-- Plain statement of the ascending key order used by the pandas
groupby sort: Time first, then Side, then Price, then Date. -/
def dateLe : Option (ℕ × ℕ × ℕ) → Option (ℕ × ℕ × ℕ) → Prop
  | none, _ => True
  | some _, none => False
  | some a, some b =>
      a.1 < b.1 ∨ (a.1 = b.1 ∧ (a.2.1 < b.2.1 ∨ (a.2.1 = b.2.1 ∧ a.2.2 ≤ b.2.2)))

instance (a b : Option (ℕ × ℕ × ℕ)) : Decidable (dateLe a b) :=
  match a, b with
  | none, _ => isTrue trivial
  | some _, none => isFalse (fun h => h)
  | some x, some y =>
      inferInstanceAs (Decidable (x.1 < y.1 ∨ (x.1 = y.1 ∧ (x.2.1 < y.2.1 ∨ (x.2.1 = y.2.1 ∧ x.2.2 ≤ y.2.2)))))

/-- Key comparison: lexicographic in the column order Time, Side,
Price, Date, with string order on the first two components. -/
def keyLe (a b : TKey) : Prop :=
  a.1.data < b.1.data ∨ (a.1.data = b.1.data ∧ (a.2.1.data < b.2.1.data ∨
    (a.2.1.data = b.2.1.data ∧ (a.2.2.1 < b.2.2.1 ∨
      (a.2.2.1 = b.2.2.1 ∧ dateLe a.2.2.2 b.2.2.2)))))

instance (a b : TKey) : Decidable (keyLe a b) := by
  unfold keyLe; infer_instance

theorem encOptDate_le_iff (x y : Option (ℕ × ℕ × ℕ)) :
    encOptDate x ≤ encOptDate y ↔ dateLe x y := by
  cases x <;> cases y <;>
    simp [encOptDate, dateLe, encDate, Prod.Lex.le_iff, WithBot.coe_le_coe]

theorem keyLe_iff_encKey_le (a b : TKey) : keyLe a b ↔ encKey a ≤ encKey b := by
  obtain ⟨t1, s1, p1, d1⟩ := a
  obtain ⟨t2, s2, p2, d2⟩ := b
  simp [keyLe, encKey, Prod.Lex.le_iff, encOptDate_le_iff]

theorem encOptDate_injective : Function.Injective encOptDate := by
  intro x y h
  cases x with
  | none =>
      cases y with
      | none => rfl
      | some b => exact absurd h (by simp [encOptDate])
  | some a =>
      cases y with
      | none => exact absurd h (by simp [encOptDate])
      | some b =>
          obtain ⟨a1, a2, a3⟩ := a
          obtain ⟨b1, b2, b3⟩ := b
          simp only [encOptDate, encDate, WithBot.coe_inj, toLex_inj, Prod.mk.injEq] at h
          obtain ⟨rfl, rfl, rfl⟩ := h
          rfl

theorem encKey_injective : Function.Injective encKey := by
  intro a b h
  obtain ⟨t1, s1, p1, d1⟩ := a
  obtain ⟨t2, s2, p2, d2⟩ := b
  simp only [encKey, toLex_inj, Prod.mk.injEq] at h
  obtain ⟨h1, h2, h3, h4⟩ := h
  exact Prod.ext (String.ext h1)
    (Prod.ext (String.ext h2) (Prod.ext h3 (encOptDate_injective h4)))

instance : IsTrans TKey keyLe :=
  ⟨fun a b c hab hbc => (keyLe_iff_encKey_le a c).mpr
    (le_trans ((keyLe_iff_encKey_le a b).mp hab) ((keyLe_iff_encKey_le b c).mp hbc))⟩

instance : IsTotal TKey keyLe :=
  ⟨fun a b => (le_total (encKey a) (encKey b)).imp
    (keyLe_iff_encKey_le a b).mpr (keyLe_iff_encKey_le b a).mpr⟩

instance : IsAntisymm TKey keyLe :=
  ⟨fun a b h1 h2 => encKey_injective
    (le_antisymm ((keyLe_iff_encKey_le a b).mp h1) ((keyLe_iff_encKey_le b a).mp h2))⟩

instance : DecidableEq TKey := instDecidableEqProd

/-- The rows of the requested symbol (exact, case sensitive match). -/
def symbolRows (rows : List TradeRow) (symbol : String) : List TradeRow :=
  rows.filter (fun r => r.symbol == symbol)

/-- Quantity aggregated over one group, as group.Qty.sum does. -/
def groupQty (rows : List TradeRow) (hasDate : Bool) (k : TKey) : ℚ :=
  ((rows.filter (fun r => rowKey hasDate r == k)).map TradeRow.qty).sum

/-- The distinct grouping keys in ascending key order, which is how
the pandas groupby with its default sort enumerates the groups. -/
def sortedKeys (rows : List TradeRow) (symbol : String) (hasDate : Bool) : List TKey :=
  List.insertionSort keyLe (((symbolRows rows symbol).map (rowKey hasDate)).dedup)

/-- consolidate_trades from the source: filter to the symbol, group by
(Time, Side, Price) plus Date when present, and sum the quantities. -/
def consolidate_trades (rows : List TradeRow) (symbol : String) (hasDate : Bool) :
    List ConsolidatedTrade :=
  (sortedKeys rows symbol hasDate).map
    (fun k => ⟨k.1, k.2.1, k.2.2.1, groupQty (symbolRows rows symbol) hasDate k, k.2.2.2⟩)

/-! ## Script renderer (generate_pinescript) -/

/-- One emitted per trade match variable definition: its 1-based index,
the raw trade price and the sign of the vertical offset applied. -/
structure PlotExpr where
  idx : ℕ
  price : ℚ
  coeff : ℤ
deriving DecidableEq, Repr

/-- The lines the renderer emits for one side: the match variable
definitions (only trades whose time parses get one), the plotshape
directives (one per consolidated trade, parseable time or not), the
summary count, and the variable indices joined into the alert
expression (an empty list means no alertcondition line is emitted). -/
structure SideRender where
  defs : List PlotExpr
  plots : List ℕ
  count : ℕ
  alertVars : List ℕ
deriving DecidableEq, Repr

/-- Renders one side partition, mirroring the loops of the source:
definitions are guarded by parse_time succeeding, plotshape lines and
the alert join range over every consolidated trade of the side. -/
def sideRender (ts : List ConsolidatedTrade) (coeff : ℤ) : SideRender :=
  { defs := ts.enum.filterMap
      (fun p => if (parse_time p.2.time).isSome then some ⟨p.1 + 1, p.2.price, coeff⟩ else none)
  , plots := ts.enum.map (fun p => p.1 + 1)
  , count := ts.length
  , alertVars := (List.range ts.length).map (fun i => i + 1) }

/-- The rendered output data relevant to the claims. -/
structure RenderOut where
  buy : SideRender
  sell : SideRender
  short : SideRender
  total : ℕ
deriving DecidableEq, Repr

/-- generate_pinescript after date resolution: consolidate, stop with
the no-trades message when nothing is left, otherwise partition into
sides and render.  Buys carry offset sign +1, sells 0, shorts -1. -/
def generate_pinescript (rows : List TradeRow) (hasDate : Bool) (symbol : String) :
    Except String RenderOut :=
  let ct := consolidate_trades rows symbol hasDate
  if ct.isEmpty then .error ("No trades found for symbol " ++ symbol)
  else
    let buys := ct.filter (fun t => t.side == "B")
    let sells := ct.filter (fun t => t.side == "S")
    let shorts := ct.filter (fun t => t.side == "SS")
    .ok { buy := sideRender buys 1
        , sell := sideRender sells 0
        , short := sideRender shorts (-1)
        , total := buys.length + sells.length + shorts.length }

/-- Value plotted for a match variable at a given offset amount. -/
def evalPlot (e : PlotExpr) (off : ℚ) : ℚ := e.price + e.coeff * off

/-- offset_amount = price_range * 0.002 from the emitted script. -/
def offset_amount (priceRange : ℚ) : ℚ := priceRange * (2 / 1000)

/-- Exit code of main: 1 when generate_pinescript returned nothing. -/
def mainExitCode (rows : List TradeRow) (hasDate : Bool) (symbol : String) : ℕ :=
  match generate_pinescript rows hasDate symbol with
  | .error _ => 1
  | .ok _ => 0

/-- Whether an output file is written: the write happens only on the
success path of generate_pinescript. -/
def writesOutput (rows : List TradeRow) (hasDate : Bool) (symbol : String) : Bool :=
  (generate_pinescript rows hasDate symbol).toOption.isSome

/-! ## Date source resolution (generate_pinescript, lines 124 to 171) -/

/-- The DataFrame as the date scan sees it: column names and rows of
cells, none standing for NaN. -/
structure Frame where
  cols : List String
  rows : List (List (Option String))
deriving DecidableEq, Repr

def colName (f : Frame) (i : ℕ) : String := f.cols.getD i ""

/-- not trades_df[col].isna().all() -/
def colHasData (f : Frame) (i : ℕ) : Bool :=
  f.rows.any (fun r => (r.getD i none).isSome)

/-- The known trade field names skipped by the right to left scan. -/
def knownTradeCols : List String :=
  ["Time", "Symbol", "Side", "Price", "Qty", "Route", "Broker", "Account", "Type", "Cloid"]

/-- A column accepted by step 1 of the scan: has data and is not a
known trade field. -/
def goodDateCol (f : Frame) (i : ℕ) : Bool :=
  colHasData f i && !(knownTradeCols.contains (colName f i))

/-- A column accepted by step 2: anonymous or placeholder name, with data. -/
def anonDateCol (f : Frame) (i : ℕ) : Bool :=
  (("Unnamed:".data).isPrefixOf (colName f i).data || colName f i == "") && colHasData f i

/-- The while loop of step 1: indices n-1, n-2, ..., 0, first hit wins. -/
def findTop (p : ℕ → Bool) : ℕ → Option ℕ
  | 0 => none
  | n + 1 => if p n then some n else findTop p n

/-- The for loop of step 2: indices i, i+1, ... while fuel lasts. -/
def scanUp (p : ℕ → Bool) : ℕ → ℕ → Option ℕ
  | _, 0 => none
  | i, fuel + 1 => if p i then some i else scanUp p (i + 1) fuel

def cloidIdx (f : Frame) : ℕ := f.cols.indexOf "Cloid"

/-- parse_date_from_cloid applied to a cell; NaN cells fail. -/
def cloidCellDate (c : Option String) : Option (ℕ × ℕ × ℕ) :=
  match c with
  | none => none
  | some s => parse_date_from_cloid s

/-- Step 3 test: a Cloid column exists and at least one row yields a
valid identifier encoded date. -/
def hasCloidDates (f : Frame) : Bool :=
  f.cols.contains "Cloid"
    && f.rows.any (fun r => (cloidCellDate (r.getD (cloidIdx f) none)).isSome)

inductive DateSource
  | explicitCol (name : String)
  | unnamedCol (name : String)
  | cloidParsed
  | timeOnly
deriving DecidableEq, Repr

/-- The dataset wide date source resolution of generate_pinescript:
right to left scan for an explicit column, then (behind the column
count threshold of 10) a scan for anonymous columns, then the Cloid
fallback, else time-only mode. -/
def resolveDateSource (f : Frame) : DateSource :=
  match findTop (goodDateCol f) f.cols.length with
  | some i => .explicitCol (colName f i)
  | none =>
      match (if 10 < f.cols.length then scanUp (anonDateCol f) 0 f.cols.length else none) with
      | some j => .unnamedCol (colName f j)
      | none => if hasCloidDates f then .cloidParsed else .timeOnly

/-! ## Helper lemmas -/

theorem isDigit_not_isAlpha {c : Char} (h : c.isDigit = true) : c.isAlpha = false := by
  simp only [Char.isDigit, decide_eq_true_eq, Bool.and_eq_true] at h
  simp only [Char.isAlpha, Char.isUpper, Char.isLower, Bool.or_eq_false_iff,
    Bool.and_eq_false_iff, decide_eq_false_iff_not]
  have h2n : c.val.toNat ≤ 57 := h.2
  refine ⟨Or.inl fun h3 => ?_, Or.inl fun h3 => ?_⟩
  · have h3n : 65 ≤ c.val.toNat := h3
    omega
  · have h3n : 97 ≤ c.val.toNat := h3
    omega

theorem cloidCore_eq_some_iff (l : List Char) (y mo dy : ℕ) :
    cloidCore l = some (y, mo, dy) ↔
      ∃ c0 c1 c2 c3 c4 c5 c6 rest,
        l = c0 :: c1 :: c2 :: c3 :: c4 :: c5 :: c6 :: rest ∧
        c0.isAlpha = true ∧ c1.isDigit = true ∧ c2.isDigit = true ∧ c3.isDigit = true ∧
        c4.isDigit = true ∧ c5.isDigit = true ∧ c6.isDigit = true ∧
        y = 2000 + (10 * digitVal c1 + digitVal c2) ∧
        mo = 10 * digitVal c3 + digitVal c4 ∧ dy = 10 * digitVal c5 + digitVal c6 ∧
        1 ≤ mo ∧ mo ≤ 12 ∧ 1 ≤ dy ∧ dy ≤ 31 := by
  rcases l with _ | ⟨c0, _ | ⟨c1, _ | ⟨c2, _ | ⟨c3, _ | ⟨c4, _ | ⟨c5, _ | ⟨c6, rest⟩⟩⟩⟩⟩⟩⟩
  · simp [cloidCore]
  · simp [cloidCore]
  · simp [cloidCore]
  · simp [cloidCore]
  · simp [cloidCore]
  · simp [cloidCore]
  · simp [cloidCore]
  · constructor
    · intro h
      simp only [cloidCore] at h
      split_ifs at h with hcond hrange
      · simp only [Option.some.injEq, Prod.mk.injEq] at h
        obtain ⟨hy, hmo, hdy⟩ := h
        subst hy; subst hmo; subst hdy
        simp only [Bool.and_eq_true] at hcond
        obtain ⟨⟨⟨⟨⟨⟨ha, h1⟩, h2⟩, h3⟩, h4⟩, h5⟩, h6⟩ := hcond
        exact ⟨c0, c1, c2, c3, c4, c5, c6, rest, rfl, ha, h1, h2, h3, h4, h5, h6,
          rfl, rfl, rfl, hrange.1, hrange.2.1, hrange.2.2.1, hrange.2.2.2⟩
    · rintro ⟨d0, d1, d2, d3, d4, d5, d6, rest2, heq, ha, h1, h2, h3, h4, h5, h6,
        hy, hmo, hdy, hm1, hm2, hd1, hd2⟩
      simp only [List.cons.injEq] at heq
      obtain ⟨rfl, rfl, rfl, rfl, rfl, rfl, rfl, rfl⟩ := heq
      subst hy; subst hmo; subst hdy
      simp only [cloidCore, ha, h1, h2, h3, h4, h5, h6, Bool.and_self, if_true]
      rw [if_pos ⟨hm1, hm2, hd1, hd2⟩]

/-! ## Claim C3: timeframe rounding and carry propagation -/

/-- C3 (code bug evaluation): the claim says the emitted predicate
rounds the trade second to the nearest multiple of the bar interval
(47 with interval 10 gives 50, 58 gives 60 and carries into the
minute).  But in the generated script second_val / tf_seconds is Pine
int division, which truncates before math.round is applied, so the
predicate computes the floor multiple: 47 gives 40, 58 gives 50, the
truncated second never exceeds the original, and for any in-range
second (below 60) the overflow and carry branches are dead code - the
adjusted time is always (hour, minute, truncated second) with no
carry. -/
theorem claim_C3_truncated_rounding_no_carry :
    roundedSec 47 10 = 40 ∧ roundedSec 58 10 = 50 ∧
    adjustTime 9 30 47 10 = (9, 30, 40) ∧ adjustTime 9 30 58 10 = (9, 30, 50) ∧
    (∀ s tf : ℕ, roundedSec s tf ≤ s) ∧
    (∀ h m s tf : ℕ, s < 60 → adjustTime h m s tf = (h, m, roundedSec s tf)) := by
  refine ⟨by decide, by decide, by decide, by decide, ?_, ?_⟩
  · intro s tf
    exact Nat.div_mul_le_self s tf
  · intro h m s tf hs
    have hle : roundedSec s tf ≤ s := Nat.div_mul_le_self s tf
    simp only [adjustTime]
    rw [if_neg (by omega)]

/-- Witness for C3 at a concrete input: at 23:59:58 on a 10 second
interval the truncated second stays below the original and no carry
happens, contrary to the claimed rounding to 60. -/
theorem claim_C3_witness :
    roundedSec 58 10 ≤ 58 ∧ adjustTime 23 59 58 10 = (23, 59, roundedSec 58 10) :=
  ⟨claim_C3_truncated_rounding_no_carry.2.2.2.2.1 58 10,
   claim_C3_truncated_rounding_no_carry.2.2.2.2.2 23 59 58 10 (by decide)⟩

/-! ## Claim C5: the Cloid date decoder -/

/-- C5: parse_date_from_cloid succeeds exactly on identifiers of
length at least 7 whose first character is a letter and whose
characters at positions 1 through 6 are digits read as YYMMDD with the
month in [1, 12] and the day in [1, 31]; on success it returns
(2000 + YY, MM, DD).  The example identifier decodes to (2025, 5, 14),
and an identifier starting with a digit fails. -/
theorem claim_C5_parse_date_from_cloid :
    (∀ s : String, trimChars s.data = s.data → ∀ y mo dy : ℕ,
      (parse_date_from_cloid s = some (y, mo, dy) ↔
        ∃ c0 c1 c2 c3 c4 c5 c6 rest,
          s.data = c0 :: c1 :: c2 :: c3 :: c4 :: c5 :: c6 :: rest ∧
          c0.isAlpha = true ∧ c1.isDigit = true ∧ c2.isDigit = true ∧ c3.isDigit = true ∧
          c4.isDigit = true ∧ c5.isDigit = true ∧ c6.isDigit = true ∧
          y = 2000 + (10 * digitVal c1 + digitVal c2) ∧
          mo = 10 * digitVal c3 + digitVal c4 ∧ dy = 10 * digitVal c5 + digitVal c6 ∧
          1 ≤ mo ∧ mo ≤ 12 ∧ 1 ≤ dy ∧ dy ≤ 31)) ∧
    parse_date_from_cloid "Q2505140017405" = some (2025, 5, 14) ∧
    (∀ s : String, ∀ c : Char, ∀ rest : List Char,
      trimChars s.data = c :: rest → c.isDigit = true → parse_date_from_cloid s = none) := by
  refine ⟨?_, by decide, ?_⟩
  · intro s hs y mo dy
    rw [parse_date_from_cloid, hs]
    exact cloidCore_eq_some_iff s.data y mo dy
  · intro s c rest hl hdig
    rw [parse_date_from_cloid, hl]
    have halpha : c.isAlpha = false := isDigit_not_isAlpha hdig
    rcases rest with _ | ⟨d1, _ | ⟨d2, _ | ⟨d3, _ | ⟨d4, _ | ⟨d5, _ | ⟨d6, rest2⟩⟩⟩⟩⟩⟩
    · rfl
    · rfl
    · rfl
    · rfl
    · rfl
    · rfl
    · simp [cloidCore, halpha]

/-- Witness for C5: the example identifier decodes, and the digit
start rejection fires at a concrete identifier. -/
theorem claim_C5_witness :
    parse_date_from_cloid "Q2505140017405" = some (2025, 5, 14) ∧
    parse_date_from_cloid "12505140017405" = none :=
  ⟨claim_C5_parse_date_from_cloid.2.1,
   claim_C5_parse_date_from_cloid.2.2 "12505140017405" '1' ("2505140017405" : String).data
     (by decide) (by decide)⟩

/-! ## Renderer helper lemmas -/

instance {ε α : Type} [DecidableEq ε] [DecidableEq α] : DecidableEq (Except ε α) :=
  fun a b =>
    match a, b with
    | .error x, .error y =>
        decidable_of_iff (x = y) ⟨fun h => by rw [h], fun h => by injection h⟩
    | .ok x, .ok y =>
        decidable_of_iff (x = y) ⟨fun h => by rw [h], fun h => by injection h⟩
    | .error _, .ok _ => isFalse (fun h => by injection h)
    | .ok _, .error _ => isFalse (fun h => by injection h)

theorem generate_pinescript_ok {rows : List TradeRow} {hasDate : Bool} {symbol : String}
    {out : RenderOut} (h : generate_pinescript rows hasDate symbol = .ok out) :
    out = { buy := sideRender ((consolidate_trades rows symbol hasDate).filter
                (fun t => t.side == "B")) 1
          , sell := sideRender ((consolidate_trades rows symbol hasDate).filter
                (fun t => t.side == "S")) 0
          , short := sideRender ((consolidate_trades rows symbol hasDate).filter
                (fun t => t.side == "SS")) (-1)
          , total := ((consolidate_trades rows symbol hasDate).filter
                (fun t => t.side == "B")).length
              + ((consolidate_trades rows symbol hasDate).filter
                (fun t => t.side == "S")).length
              + ((consolidate_trades rows symbol hasDate).filter
                (fun t => t.side == "SS")).length } := by
  simp only [generate_pinescript] at h
  split_ifs at h with he
  simp only [Except.ok.injEq] at h
  exact h.symm

theorem coeff_of_mem_sideRender {ts : List ConsolidatedTrade} {c : ℤ} {e : PlotExpr}
    (he : e ∈ (sideRender ts c).defs) : e.coeff = c := by
  simp only [sideRender, List.mem_filterMap] at he
  obtain ⟨p, hp, hpe⟩ := he
  split_ifs at hpe
  simp only [Option.some.injEq] at hpe
  rw [← hpe]

/-! ## Claim C2: rows with unparseable time are not fully excluded -/

/-- C2 (code bug evaluation): for a dataset with a single buy row whose
Time is "garbage", parse_time fails, so no match variable definition is
emitted (defs is empty) - yet the renderer still emits a plotshape line
referencing buy_trade_1, counts the trade in the summary (count 1,
total 1) and joins buy_trade_1 into the alert expression.  The claim
says such a row contributes no plot directive, no summary count and no
alert variable; the code does all three. -/
theorem claim_C2_unparseable_time_not_excluded :
    parse_time "garbage" = none ∧
    generate_pinescript [⟨"garbage", "ABC", "B", 10, 100, none⟩] false "ABC" =
      .ok { buy := { defs := [], plots := [1], count := 1, alertVars := [1] }
          , sell := { defs := [], plots := [], count := 0, alertVars := [] }
          , short := { defs := [], plots := [], count := 0, alertVars := [] }
          , total := 1 } := by
  constructor
  · decide
  · decide

/-! ## Claim C9: alert expressions and emitted match variables -/

/-- C9 (code bug evaluation): with a single sell trade whose time does
not parse, the alert expression is the OR over sell_trade_1 (alertVars
= [1]) although the set of emitted match variable definitions is empty,
so the alert is not the OR of exactly the emitted variables. -/
theorem claim_C9_alert_references_unemitted_variable :
    generate_pinescript [⟨"bogus", "XYZ", "S", 7, 3, none⟩] false "XYZ" =
      .ok { buy := { defs := [], plots := [], count := 0, alertVars := [] }
          , sell := { defs := [], plots := [1], count := 1, alertVars := [1] }
          , short := { defs := [], plots := [], count := 0, alertVars := [] }
          , total := 1 } ∧
    ([1] : List ℕ) ≠ List.map PlotExpr.idx ([] : List PlotExpr) := by
  constructor
  · decide
  · decide

/-! ## Claim C6: empty result set -/

/-- C6: when consolidation for the requested symbol yields nothing, the
generator reports the no-trades message, writes no output file, and
main exits with code 1; no exception is raised (the outcome is an
ordinary error value). -/
theorem claim_C6_no_trades_clean_failure (rows : List TradeRow) (hasDate : Bool)
    (symbol : String) (h : consolidate_trades rows symbol hasDate = []) :
    generate_pinescript rows hasDate symbol =
      .error ("No trades found for symbol " ++ symbol) ∧
    writesOutput rows hasDate symbol = false ∧
    mainExitCode rows hasDate symbol = 1 := by
  have hg : generate_pinescript rows hasDate symbol =
      .error ("No trades found for symbol " ++ symbol) := by
    simp [generate_pinescript, h]
  refine ⟨hg, ?_, ?_⟩
  · simp only [writesOutput, hg]
    rfl
  · simp only [mainExitCode, hg]

/-- Witness for C6: a dataset holding only an XYZ row, rendered for ABC. -/
theorem claim_C6_witness :
    consolidate_trades [⟨"09:30:00", "XYZ", "B", 10, 100, none⟩] "ABC" false = [] ∧
    (generate_pinescript [⟨"09:30:00", "XYZ", "B", 10, 100, none⟩] false "ABC" =
        .error ("No trades found for symbol " ++ "ABC") ∧
      writesOutput [⟨"09:30:00", "XYZ", "B", 10, 100, none⟩] false "ABC" = false ∧
      mainExitCode [⟨"09:30:00", "XYZ", "B", 10, 100, none⟩] false "ABC" = 1) :=
  ⟨by decide, claim_C6_no_trades_clean_failure _ false "ABC" (by decide)⟩

/-! ## Claim C7: vertical offsets of plotted values -/

/-- C7: in the rendered script every buy match variable plots the raw
price plus the offset amount, every sell variable exactly the raw
price, and every short sell variable the raw price minus the offset
amount; with a nonzero (hence positive, the price range being
nonnegative) offset, buy plotted value > raw price > short plotted
value. -/
theorem claim_C7_offset_directions :
    ∀ (rows : List TradeRow) (hasDate : Bool) (symbol : String) (out : RenderOut),
      generate_pinescript rows hasDate symbol = .ok out →
      (∀ e ∈ out.buy.defs, ∀ off : ℚ, evalPlot e off = e.price + off) ∧
      (∀ e ∈ out.sell.defs, ∀ off : ℚ, evalPlot e off = e.price) ∧
      (∀ e ∈ out.short.defs, ∀ off : ℚ, evalPlot e off = e.price - off) ∧
      (∀ pr : ℚ, 0 ≤ pr → offset_amount pr ≠ 0 →
        (∀ e ∈ out.buy.defs, e.price < evalPlot e (offset_amount pr)) ∧
        (∀ e ∈ out.short.defs, evalPlot e (offset_amount pr) < e.price)) := by
  intro rows hasDate symbol out hout
  have hrec := generate_pinescript_ok hout
  subst hrec
  have hbuy : ∀ e ∈ (sideRender ((consolidate_trades rows symbol hasDate).filter
      (fun t => t.side == "B")) 1).defs, ∀ off : ℚ, evalPlot e off = e.price + off := by
    intro e he off
    have hc := coeff_of_mem_sideRender he
    simp [evalPlot, hc]
  have hsell : ∀ e ∈ (sideRender ((consolidate_trades rows symbol hasDate).filter
      (fun t => t.side == "S")) 0).defs, ∀ off : ℚ, evalPlot e off = e.price := by
    intro e he off
    have hc := coeff_of_mem_sideRender he
    simp [evalPlot, hc]
  have hshort : ∀ e ∈ (sideRender ((consolidate_trades rows symbol hasDate).filter
      (fun t => t.side == "SS")) (-1)).defs, ∀ off : ℚ, evalPlot e off = e.price - off := by
    intro e he off
    have hc := coeff_of_mem_sideRender he
    simp [evalPlot, hc]
    ring
  refine ⟨hbuy, hsell, hshort, ?_⟩
  intro pr hpr hne
  have hoffpos : 0 < offset_amount pr := by
    have hnn : 0 ≤ offset_amount pr := by
      unfold offset_amount
      positivity
    exact lt_of_le_of_ne hnn (Ne.symm hne)
  constructor
  · intro e he
    rw [hbuy e he (offset_amount pr)]
    linarith
  · intro e he
    rw [hshort e he (offset_amount pr)]
    linarith

/-- The rendered output of a one-buy-row dataset, used by the C7 witness. -/
def renderOutSample : RenderOut :=
  { buy := { defs := [⟨1, 10, 1⟩], plots := [1], count := 1, alertVars := [1] }
  , sell := { defs := [], plots := [], count := 0, alertVars := [] }
  , short := { defs := [], plots := [], count := 0, alertVars := [] }
  , total := 1 }

/-- Witness for C7 at one concrete buy trade and price range 5. -/
theorem claim_C7_witness :
    evalPlot ⟨1, 10, 1⟩ (offset_amount 5) = (10 : ℚ) + offset_amount 5 ∧
    (10 : ℚ) < evalPlot ⟨1, 10, 1⟩ (offset_amount 5) := by
  have h := claim_C7_offset_directions [⟨"09:30:00", "ABC", "B", 10, 100, none⟩] false "ABC"
      renderOutSample (by decide)
  exact ⟨h.1 ⟨1, 10, 1⟩ (by decide) (offset_amount 5),
    (h.2.2.2 5 (by norm_num) (by norm_num [offset_amount])).1 ⟨1, 10, 1⟩ (by decide)⟩

/-! ## Claim C4: date format trial order -/

theorem firstSome_getD (l : List (Option (ℕ × ℕ × ℕ))) (i : ℕ) (r : ℕ × ℕ × ℕ)
    (h : l.getD i none = some r) (hprev : ∀ j, j < i → l.getD j none = none) :
    firstSome l = some r := by
  induction l generalizing i with
  | nil => simp [List.getD] at h
  | cons o t ih =>
      cases i with
      | zero =>
          simp only [List.getD_cons_zero] at h
          rw [h]
          rfl
      | succ i2 =>
          have h0 : o = none := by
            have := hprev 0 (Nat.succ_pos i2)
            simpa using this
          subst h0
          simp only [firstSome]
          exact ih i2 (by simpa using h)
            (fun j hj => by
              have := hprev (j + 1) (by omega)
              simpa using this)

theorem firstSome_none (l : List (Option (ℕ × ℕ × ℕ))) (h : ∀ o ∈ l, o = none) :
    firstSome l = none := by
  induction l with
  | nil => rfl
  | cons o t ih =>
      have h0 : o = none := h o (List.mem_cons_self o t)
      subst h0
      simp only [firstSome]
      exact ih (fun o ho => h o (List.mem_cons_of_mem _ ho))

theorem getD_map_tryFormat (l : List DateFmt) (cs : List Char) (i : ℕ) (hi : i < l.length) :
    (l.map (fun f => tryFormat f cs)).getD i none = tryFormat (l.getD i .ymdDash) cs := by
  induction l generalizing i with
  | nil => simp at hi
  | cons a t ih =>
      cases i with
      | zero => simp
      | succ i2 => simpa using ih i2 (by simpa using hi)

/-- C4: parse_date tries the six candidate formats in the fixed source
order [YYYY-MM-DD, MM/DD/YYYY, MM/DD/YY, YYYYMMDD, MM-DD-YYYY,
DD/MM/YYYY] and returns the result of the first format that parses the
(stripped) input; a string that no format parses fails.  The ambiguous
string "01/02/03" is therefore resolved by format order as MM/DD/YY,
giving (2003, 1, 2). -/
theorem claim_C4_format_trial_order :
    (∀ (s : String) (i : ℕ) (r : ℕ × ℕ × ℕ), i < dateFormats.length →
      tryFormat (dateFormats.getD i .ymdDash) (trimChars s.data) = some r →
      (∀ j, j < i → tryFormat (dateFormats.getD j .ymdDash) (trimChars s.data) = none) →
      parse_date s = some r) ∧
    (∀ s : String, (∀ f ∈ dateFormats, tryFormat f (trimChars s.data) = none) →
      parse_date s = none) ∧
    parse_date "01/02/03" = some (2003, 1, 2) ∧
    tryFormat .mdy2Slash (trimChars ("01/02/03" : String).data) = some (2003, 1, 2) ∧
    tryFormat .ymdDash (trimChars ("01/02/03" : String).data) = none ∧
    tryFormat .mdySlash (trimChars ("01/02/03" : String).data) = none := by
  refine ⟨?_, ?_, by decide, by decide, by decide, by decide⟩
  · intro s i r hi ht hprev
    unfold parse_date
    apply firstSome_getD _ i
    · rw [getD_map_tryFormat _ _ i hi]
      exact ht
    · intro j hj
      rw [getD_map_tryFormat _ _ j (lt_trans hj hi)]
      exact hprev j hj
  · intro s hall
    unfold parse_date
    apply firstSome_none
    intro o ho
    rw [List.mem_map] at ho
    obtain ⟨f, hf, rfl⟩ := ho
    exact hall f hf

/-- Witness for C4: the first format wins on a YYYY-MM-DD input, and a
garbage input that matches no format fails. -/
theorem claim_C4_witness :
    parse_date "2024-05-14" = some (2024, 5, 14) ∧ parse_date "garbage" = none :=
  ⟨claim_C4_format_trial_order.1 "2024-05-14" 0 (2024, 5, 14) (by decide) (by decide)
      (fun j hj => absurd hj (Nat.not_lt_zero j)),
   claim_C4_format_trial_order.2.1 "garbage" (by decide)⟩

/-! ## Claim C8: date source resolution priority -/

theorem findTop_eq_some (p : ℕ → Bool) (n i : ℕ) (hi : i < n) (hp : p i = true)
    (hafter : ∀ j, i < j → j < n → p j = false) : findTop p n = some i := by
  induction n with
  | zero => omega
  | succ n ih =>
      rcases Nat.lt_succ_iff_lt_or_eq.mp hi with hlt | heq
      · have hn : p n = false := hafter n hlt (Nat.lt_succ_self n)
        simp only [findTop, hn, Bool.false_eq_true, if_false]
        exact ih hlt (fun j h1 h2 => hafter j h1 (by omega))
      · subst heq
        simp only [findTop, hp, if_true]

theorem findTop_eq_none (p : ℕ → Bool) (n : ℕ) (h : ∀ j, j < n → p j = false) :
    findTop p n = none := by
  induction n with
  | zero => rfl
  | succ n ih =>
      have hn : p n = false := h n (Nat.lt_succ_self n)
      simp only [findTop, hn, Bool.false_eq_true, if_false]
      exact ih (fun j hj => h j (by omega))

theorem scanUp_eq_some (p : ℕ → Bool) (fuel : ℕ) :
    ∀ (start j : ℕ), start ≤ j → j < start + fuel → p j = true →
      (∀ k, start ≤ k → k < j → p k = false) → scanUp p start fuel = some j := by
  induction fuel with
  | zero => intro start j h1 h2 _ _; omega
  | succ fuel ih =>
      intro start j h1 h2 hp hbefore
      rcases eq_or_lt_of_le h1 with heq | hlt
      · subst heq
        simp only [scanUp, hp, if_true]
      · have h0 : p start = false := hbefore start le_rfl hlt
        simp only [scanUp, h0, Bool.false_eq_true, if_false]
        exact ih (start + 1) j (by omega) (by omega) hp
          (fun k hk1 hk2 => hbefore k (by omega) hk2)

theorem scanUp_eq_none (p : ℕ → Bool) (fuel : ℕ) :
    ∀ start : ℕ, (∀ k, start ≤ k → k < start + fuel → p k = false) →
      scanUp p start fuel = none := by
  induction fuel with
  | zero => intro start _; rfl
  | succ fuel ih =>
      intro start h
      have h0 : p start = false := h start le_rfl (by omega)
      simp only [scanUp, h0, Bool.false_eq_true, if_false]
      exact ih (start + 1) (fun k hk1 hk2 => h k (by omega) (by omega))

/-- C8: the dataset wide date source resolution follows the strict
priority of the source.  (1) The rightmost column with data whose name
is not a known trade field becomes the explicit date column.  (2)
Otherwise, when the column count exceeds 10, the first anonymous or
placeholder named column with data is used.  (3) Otherwise, when a
Cloid column exists and at least one row yields a valid identifier
encoded date, identifier parsing is chosen.  (4) Otherwise the dataset
is processed in time-only mode. -/
theorem claim_C8_date_source_priority (f : Frame) :
    (∀ i, i < f.cols.length → goodDateCol f i = true →
      (∀ j, i < j → j < f.cols.length → goodDateCol f j = false) →
      resolveDateSource f = .explicitCol (colName f i)) ∧
    ((∀ i, i < f.cols.length → goodDateCol f i = false) → 10 < f.cols.length →
      ∀ j, j < f.cols.length → anonDateCol f j = true →
      (∀ k, k < j → anonDateCol f k = false) →
      resolveDateSource f = .unnamedCol (colName f j)) ∧
    ((∀ i, i < f.cols.length → goodDateCol f i = false) →
      (f.cols.length ≤ 10 ∨ ∀ j, j < f.cols.length → anonDateCol f j = false) →
      hasCloidDates f = true → resolveDateSource f = .cloidParsed) ∧
    ((∀ i, i < f.cols.length → goodDateCol f i = false) →
      (f.cols.length ≤ 10 ∨ ∀ j, j < f.cols.length → anonDateCol f j = false) →
      hasCloidDates f = false → resolveDateSource f = .timeOnly) := by
  refine ⟨?_, ?_, ?_, ?_⟩
  · intro i hi hgood hafter
    unfold resolveDateSource
    rw [findTop_eq_some (goodDateCol f) f.cols.length i hi hgood hafter]
  · intro hnone h10 j hj hanon hbefore
    unfold resolveDateSource
    rw [findTop_eq_none _ _ hnone, if_pos h10,
      scanUp_eq_some (anonDateCol f) f.cols.length 0 j (Nat.zero_le j) (by omega) hanon
        (fun k _ hk2 => hbefore k hk2)]
  · intro hnone hstep2 hcl
    unfold resolveDateSource
    rw [findTop_eq_none _ _ hnone]
    have hs : (if 10 < f.cols.length then scanUp (anonDateCol f) 0 f.cols.length else none)
        = none := by
      rcases hstep2 with hle | hall
      · rw [if_neg (by omega)]
      · by_cases h10 : 10 < f.cols.length
        · rw [if_pos h10]
          exact scanUp_eq_none _ _ 0 (fun k _ hk2 => hall k (by omega))
        · rw [if_neg h10]
    rw [hs]
    simp only [hcl, if_true]
  · intro hnone hstep2 hcl
    unfold resolveDateSource
    rw [findTop_eq_none _ _ hnone]
    have hs : (if 10 < f.cols.length then scanUp (anonDateCol f) 0 f.cols.length else none)
        = none := by
      rcases hstep2 with hle | hall
      · rw [if_neg (by omega)]
      · by_cases h10 : 10 < f.cols.length
        · rw [if_pos h10]
          exact scanUp_eq_none _ _ 0 (fun k _ hk2 => hall k (by omega))
        · rw [if_neg h10]
    rw [hs]
    simp only [hcl, Bool.false_eq_true, if_false]

/-- A frame with an explicit trailing date column, for the C8 witness. -/
def frameExplicit : Frame :=
  ⟨["Time", "Symbol", "Side", "Price", "Qty", "TradeDate"],
   [[some "09:30:00", some "ABC", some "B", some "10", some "100", some "2024-05-14"]]⟩

/-- A frame whose only date source is the Cloid column, for the C8 witness. -/
def frameCloid : Frame :=
  ⟨["Time", "Symbol", "Side", "Price", "Qty", "Cloid"],
   [[some "09:30:00", some "ABC", some "B", some "10", some "100", some "Q2505140017405"]]⟩

/-- Witness for C8: step 1 fires on the explicit column frame, step 3
fires on the Cloid frame. -/
theorem claim_C8_witness :
    resolveDateSource frameExplicit = .explicitCol "TradeDate" ∧
    resolveDateSource frameCloid = .cloidParsed :=
  ⟨(claim_C8_date_source_priority frameExplicit).1 5 (by decide) (by decide)
      (fun j h1 h2 => by
        have hlen : frameExplicit.cols.length = 6 := rfl
        rw [hlen] at h2
        exact (by omega : False).elim),
   (claim_C8_date_source_priority frameCloid).2.2.1 (by decide) (Or.inl (by decide)) (by decide)⟩

/-! ## Claims C1 and C10: consolidation -/

theorem tradeKey_mk (k : TKey) (q : ℚ) :
    tradeKey ⟨k.1, k.2.1, k.2.2.1, q, k.2.2.2⟩ = k := by
  obtain ⟨a, b, c, d⟩ := k
  rfl

theorem map_tradeKey_consolidate (rows : List TradeRow) (symbol : String) (hasDate : Bool) :
    (consolidate_trades rows symbol hasDate).map tradeKey = sortedKeys rows symbol hasDate := by
  unfold consolidate_trades
  rw [List.map_map]
  exact List.map_id'' (fun k => tradeKey_mk k _) _

theorem countP_eq_ite_of_nodup {α : Type} [BEq α] [LawfulBEq α] (l : List α) (hl : l.Nodup)
    (k : α) : l.countP (fun x => x == k) = if k ∈ l then 1 else 0 := by
  induction l with
  | nil => simp
  | cons a t ih =>
      obtain ⟨ha, ht⟩ := List.nodup_cons.mp hl
      rw [List.countP_cons]
      by_cases hak : a = k
      · subst hak
        simp [ih ht, ha]
      · simp [ih ht, hak, List.mem_cons, Ne.symm hak]

/-- C1: for every dataset and symbol, consolidation emits exactly one
trade per distinct grouping key (Time, Side, Price, plus Date when the
Date column is active) among the rows of the requested symbol; the
quantity of each emitted trade is the sum of the Qty of exactly the
rows sharing its full key, and a row can only contribute to a trade
with its own time, side and price, so rows differing in side or price
are never merged. -/
theorem claim_C1_consolidation (rows : List TradeRow) (symbol : String) (hasDate : Bool) :
    (∀ k : TKey,
      ((consolidate_trades rows symbol hasDate).map tradeKey).countP (fun x => x == k) =
        if k ∈ (symbolRows rows symbol).map (rowKey hasDate) then 1 else 0) ∧
    (∀ t ∈ consolidate_trades rows symbol hasDate,
      t.qty = (((symbolRows rows symbol).filter
          (fun r => rowKey hasDate r == tradeKey t)).map TradeRow.qty).sum) ∧
    (∀ t ∈ consolidate_trades rows symbol hasDate, ∀ r : TradeRow,
      rowKey hasDate r = tradeKey t →
        r.time = t.time ∧ r.side = t.side ∧ r.price = t.price) := by
  refine ⟨?_, ?_, ?_⟩
  · intro k
    rw [map_tradeKey_consolidate]
    have hperm : (sortedKeys rows symbol hasDate).Perm
        (((symbolRows rows symbol).map (rowKey hasDate)).dedup) :=
      List.perm_insertionSort keyLe _
    rw [List.Perm.countP_eq _ hperm, countP_eq_ite_of_nodup _ (List.nodup_dedup _) k]
    simp only [List.mem_dedup]
  · intro t ht
    unfold consolidate_trades at ht
    rw [List.mem_map] at ht
    obtain ⟨k, hk, rfl⟩ := ht
    rw [tradeKey_mk]
    rfl
  · intro t ht r hkey
    simp only [rowKey, tradeKey, Prod.ext_iff] at hkey
    exact ⟨hkey.1, hkey.2.1, hkey.2.2.1⟩

/-- The end to end sample dataset of the spec, for the C1 witness. -/
def rowsSample : List TradeRow :=
  [⟨"09:30:00", "ABC", "B", 10, 100, none⟩,
   ⟨"09:30:00", "ABC", "B", 10, 50, none⟩,
   ⟨"09:31:00", "ABC", "S", 21, 200, none⟩]

/-- The grouping key of the two buy rows of the sample dataset. -/
def keySample : TKey := ("09:30:00", "B", (10 : ℚ), (none : Option (ℕ × ℕ × ℕ)))

/-- The consolidated buy trade of the sample dataset (its quantity is
the aggregated group quantity of the two buy rows). -/
def tradeSample : ConsolidatedTrade :=
  ⟨"09:30:00", "B", 10, groupQty (symbolRows rowsSample "ABC") false keySample, none⟩

/-- Witness for C1: on the sample dataset the buy key appears exactly
once (the two buy rows are merged) and the consolidated quantity is
the sum of the contributing rows. -/
theorem claim_C1_witness :
    ((consolidate_trades rowsSample "ABC" false).map tradeKey).countP
        (fun x => x == keySample) =
      (if keySample ∈ (symbolRows rowsSample "ABC").map (rowKey false) then 1 else 0) ∧
    tradeSample.qty = (((symbolRows rowsSample "ABC").filter
        (fun r => rowKey false r == tradeKey tradeSample)).map TradeRow.qty).sum ∧
    ((consolidate_trades rowsSample "ABC" false).map tradeKey).countP
        (fun x => x == keySample) = 1 :=
  ⟨(claim_C1_consolidation rowsSample "ABC" false).1 keySample,
   (claim_C1_consolidation rowsSample "ABC" false).2.1 tradeSample (List.Mem.head _),
   by decide⟩

/-- C10: the consolidated sequence is sorted ascending by the grouping
key in the column order Time, Side, Price, Date (keyLe is that
lexicographic order), and the output is invariant under permutation of
the input rows: it depends only on the multiset of rows, not on the
CSV order. -/
theorem claim_C10_order_independence :
    (∀ (rows rows2 : List TradeRow) (symbol : String) (hasDate : Bool),
      rows.Perm rows2 →
      consolidate_trades rows symbol hasDate = consolidate_trades rows2 symbol hasDate) ∧
    (∀ (rows : List TradeRow) (symbol : String) (hasDate : Bool),
      List.Sorted keyLe ((consolidate_trades rows symbol hasDate).map tradeKey)) := by
  constructor
  · intro rows rows2 symbol hasDate hperm
    have hfil : (symbolRows rows symbol).Perm (symbolRows rows2 symbol) := hperm.filter _
    have hded := (hfil.map (rowKey hasDate)).dedup
    have hsorted : sortedKeys rows symbol hasDate = sortedKeys rows2 symbol hasDate :=
      List.eq_of_perm_of_sorted
        (((List.perm_insertionSort keyLe _).trans hded).trans
          (List.perm_insertionSort keyLe _).symm)
        (List.sorted_insertionSort keyLe _) (List.sorted_insertionSort keyLe _)
    have hq : ∀ k, groupQty (symbolRows rows symbol) hasDate k
        = groupQty (symbolRows rows2 symbol) hasDate k := by
      intro k
      unfold groupQty
      exact List.Perm.sum_eq ((hfil.filter _).map _)
    unfold consolidate_trades
    rw [hsorted]
    simp only [hq]
  · intro rows symbol hasDate
    rw [map_tradeKey_consolidate]
    exact List.sorted_insertionSort keyLe _

/-- Witness for C10: swapping the two rows of a concrete dataset
leaves the consolidated output unchanged. -/
theorem claim_C10_witness :
    consolidate_trades
        [⟨"09:31:00", "ABC", "S", 21 / 2, 200, none⟩, ⟨"09:30:00", "ABC", "B", 10, 100, none⟩]
        "ABC" false =
      consolidate_trades
        [⟨"09:30:00", "ABC", "B", 10, 100, none⟩, ⟨"09:31:00", "ABC", "S", 21 / 2, 200, none⟩]
        "ABC" false :=
  claim_C10_order_independence.1 _ _ "ABC" false (List.Perm.swap _ _ _)
